import Mathlib

/-!
Verification development for the crev-data signed-proof envelope protocol:
the streaming envelope parser/serializer of `src/crev-data/src/proof/mod.rs`
and the identity operations of `src/crev-data/src/id.rs`, embedded shallowly
over character sequences (`List Char`), with theorems settling the spec's
claims about round-tripping, byte preservation, size guards, error handling
and identity construction.
-/

namespace Crev

/-- Decidable equality for `Except`, used to evaluate the parser on concrete
inputs. -/
instance instDecEqExcept {ε α : Type} [DecidableEq ε] [DecidableEq α] :
    DecidableEq (Except ε α) := fun a b =>
  match a, b with
  | Except.ok x, Except.ok y =>
    if h : x = y then Decidable.isTrue (by rw [h])
    else Decidable.isFalse (by simp [h])
  | Except.ok _, Except.error _ => Decidable.isFalse (by simp)
  | Except.error _, Except.ok _ => Decidable.isFalse (by simp)
  | Except.error x, Except.error y =>
    if h : x = y then Decidable.isTrue (by rw [h])
    else Decidable.isFalse (by simp [h])

/-- One line of input, as a character sequence (the content of a Rust `&str`
line with its terminator already removed). -/
abbrev Line := List Char

/-- Byte length of a character sequence under UTF-8, mirroring Rust
`String::len` (which counts bytes). -/
def utf8Len (l : List Char) : Nat := (l.map Char.utf8Size).sum

/-- Leading-whitespace strip. -/
def trimL (l : List Char) : List Char := l.dropWhile Char.isWhitespace

/-- Trailing-whitespace strip. -/
def trimR (l : List Char) : List Char := (l.reverse.dropWhile Char.isWhitespace).reverse

/-- Strip of surrounding whitespace at both ends, mirroring Rust `str::trim`
(restricted to the ASCII whitespace the envelope format uses). -/
def trimChars (l : List Char) : List Char := trimR (trimL l)

/-- Drop one trailing carriage return, as Rust `BufRead::lines` does after
removing the terminating newline of a line. -/
def stripCR (l : List Char) : List Char := if l.getLast? = some '\r' then l.dropLast else l

/-- Worker for `rustLines`: split the remaining input on newline characters,
carrying the characters of the current line accumulated so far. A final line
that is not newline-terminated is still produced, but without carriage-return
stripping, exactly as Rust `BufRead::lines` behaves. -/
def linesAux : List Char → List Char → List Line
  | acc, [] => if acc.isEmpty then [] else [acc]
  | acc, c :: rest =>
    if c = '\n' then stripCR acc :: linesAux [] rest
    else linesAux (acc ++ [c]) rest

/-- The line discipline of Rust `BufRead::lines` over a fully buffered input. -/
def rustLines (s : List Char) : List Line := linesAux [] s

/-- Join lines, terminating each with a newline — the shape in which the
parser accumulates body and signature text. -/
def joinLines : List Line → List Char
  | [] => []
  | l :: ls => l ++ '\n' :: joinLines ls

/-- The three proof kinds (`ProofType` in proof/mod.rs). -/
inductive ProofType
  | code
  | package
  | trust
deriving DecidableEq, Repr

/-- Modelled from the spec: the per-kind begin-block marker line. The marker
string constants live in the review and trust modules, which are not among
the provided sources; the spec fixes only that each kind has three fixed,
distinct marker lines with no surrounding whitespace (§4.2, §6). -/
def beginBlockC : ProofType → List Char
  | ProofType.code => "-----BEGIN CODE REVIEW-----".toList
  | ProofType.package => "-----BEGIN PACKAGE REVIEW-----".toList
  | ProofType.trust => "-----BEGIN CREV TRUST-----".toList

/-- Modelled from the spec: the per-kind begin-signature marker line (see
`beginBlockC`). -/
def beginSigC : ProofType → List Char
  | ProofType.code => "-----BEGIN CODE REVIEW SIGNATURE-----".toList
  | ProofType.package => "-----BEGIN PACKAGE REVIEW SIGNATURE-----".toList
  | ProofType.trust => "-----BEGIN CREV TRUST SIGNATURE-----".toList

/-- Modelled from the spec: the per-kind end-block marker line (see
`beginBlockC`). -/
def endBlockC : ProofType → List Char
  | ProofType.code => "-----END CODE REVIEW-----".toList
  | ProofType.package => "-----END PACKAGE REVIEW-----".toList
  | ProofType.trust => "-----END CREV TRUST-----".toList

/-- Serialized proof triplet (struct `Serialized` in proof/mod.rs), with the
text fields as character sequences. -/
structure Serialized where
  body : List Char
  signature : List Char
  type_ : ProofType
deriving DecidableEq, Repr

/-- Parser stage (the local `Stage` enum inside `Serialized::parse`). -/
inductive Stage
  | none
  | body
  | signature
deriving DecidableEq, Repr

/-- Parser state (the local `State` struct inside `Serialized::parse`). -/
structure State where
  stage : Stage
  body : List Char
  signature : List Char
  type_ : ProofType
  proofs : List Serialized
deriving Repr

/-- Parse failures: the four `bail!` sites of proof/mod.rs, in order:
"Parsing error when looking for start of code review proof",
"Proof body too long", "Signature too long",
"Unexpected EOF while parsing". -/
inductive ParseError
  | startMarkerExpected
  | bodyTooLong
  | signatureTooLong
  | unexpectedEof
deriving DecidableEq, Repr

/-- `MAX_PROOF_BODY_LENGTH` in proof/mod.rs. -/
def MAX_PROOF_BODY_LENGTH : Nat := 32000

/-- One step of the streaming envelope parser (`State::process_line` in
proof/mod.rs). The size checks run after the per-stage update, on the
updated buffers, exactly as in the source. -/
def processLine (st : State) (line : Line) : Except ParseError State :=
  match st.stage with
  | Stage.none =>
    let l := trimChars line
    if l = [] then Except.ok st
    else if l = beginBlockC ProofType.code then
      Except.ok { st with type_ := ProofType.code, stage := Stage.body }
    else if l = beginBlockC ProofType.trust then
      Except.ok { st with type_ := ProofType.trust, stage := Stage.body }
    else if l = beginBlockC ProofType.package then
      Except.ok { st with type_ := ProofType.package, stage := Stage.body }
    else Except.error ParseError.startMarkerExpected
  | Stage.body =>
    let st' :=
      if trimChars line = beginSigC st.type_ then { st with stage := Stage.signature }
      else { st with body := st.body ++ line ++ ['\n'] }
    if utf8Len st'.body > MAX_PROOF_BODY_LENGTH then Except.error ParseError.bodyTooLong
    else Except.ok st'
  | Stage.signature =>
    let st' :=
      if trimChars line = endBlockC st.type_ then
        { st with stage := Stage.none
                , body := []
                , signature := []
                , proofs := st.proofs ++ [⟨st.body, st.signature, st.type_⟩] }
      else { st with signature := st.signature ++ line ++ ['\n'] }
    if utf8Len st'.signature > 2000 then Except.error ParseError.signatureTooLong
    else Except.ok st'

/-- The parser's line loop: fold `processLine` over the lines, stopping at
the first error (the `?` in `state.process_line(&line?)?`). -/
def runFold : State → List Line → Except ParseError State
  | st, [] => Except.ok st
  | st, l :: ls =>
    match processLine st l with
    | Except.ok st' => runFold st' ls
    | Except.error e => Except.error e

/-- The `Default` instance for `State`: stage None, empty buffers, no proofs,
and the arbitrary placeholder kind `Trust` ("whatever" in the source). -/
def initState : State := ⟨Stage.none, [], [], ProofType.trust, []⟩

/-- `State::finish`: end of input is an error unless the stage is None. -/
def finishState (st : State) : Except ParseError (List Serialized) :=
  if st.stage = Stage.none then Except.ok st.proofs else Except.error ParseError.unexpectedEof

/-- Run the whole machine over a list of lines and finish. -/
def parseLines (ls : List Line) : Except ParseError (List Serialized) :=
  match runFold initState ls with
  | Except.ok st => finishState st
  | Except.error e => Except.error e

/-- `Serialized::parse` over a fully buffered input stream. -/
def Serialized.parse (input : List Char) : Except ParseError (List Serialized) :=
  parseLines (rustLines input)

/-- `impl fmt::Display for Serialized`: begin marker, newline, body (which
carries its own newlines), signature marker, newline, signature, newline,
end marker, newline. -/
def Serialized.toChars (s : Serialized) : List Char :=
  beginBlockC s.type_ ++ '\n' :: s.body ++ beginSigC s.type_ ++ '\n' :: s.signature
    ++ '\n' :: endBlockC s.type_ ++ ['\n']

/-- Parsed proof (struct `Proof` in proof/mod.rs), generic over the external
`Content` type. -/
structure Proof (C : Type) where
  body : List Char
  signature : List Char
  digest : List Nat
  content : C

/-- `Serialized::to_parsed`, with the kind-dispatched content parser and the
blake2b digest function passed in as the external capabilities they are. -/
def Serialized.toParsed {C : Type} (cp : ProofType → List Char → Except ParseError C)
    (dg : List Char → List Nat) (s : Serialized) : Except ParseError (Proof C) :=
  match cp s.type_ s.body with
  | Except.ok c => Except.ok ⟨s.body, s.signature, dg s.body, c⟩
  | Except.error e => Except.error e

/-- `Proof::parse`: run `Serialized::parse`, then `to_parsed` on each triplet
in order, stopping at the first error. -/
def Proof.parse {C : Type} (cp : ProofType → List Char → Except ParseError C)
    (dg : List Char → List Nat) (input : List Char) : Except ParseError (List (Proof C)) :=
  match Serialized.parse input with
  | Except.ok ss => ss.mapM (Serialized.toParsed cp dg)
  | Except.error e => Except.error e

/-- Verification failures named by the spec (§7). -/
inductive VerifyError
  | signatureMalformed
  | signatureInvalid
deriving DecidableEq, Repr

/-- Modelled from the spec: the external `verify_signature` capability on the
author's public id (its definition is not among the provided sources). It
decodes the signature text, failing with `signatureMalformed` when the text
cannot be decoded, and otherwise runs the cryptographic check, failing with
`signatureInvalid` when that check rejects. The decoder and the cryptographic
check themselves are passed in abstractly. -/
def verifySignature {S : Type} (decode : List Char → Option S)
    (check : List Char → S → Bool) (body sig : List Char) : Except VerifyError Unit :=
  match decode sig with
  | Option.none => Except.error VerifyError.signatureMalformed
  | Option.some s =>
    if check body s then Except.ok () else Except.error VerifyError.signatureInvalid

/-- `Proof::signature`: the stored signature text trimmed of surrounding
whitespace. -/
def Proof.signatureTrimmed {C : Type} (p : Proof C) : List Char := trimChars p.signature

/-- `Proof::verify`: check the stored signature (trimmed) against the stored
body bytes, exactly as stored. -/
def Proof.verify {C S : Type} (decode : List Char → Option S)
    (check : List Char → S → Bool) (p : Proof C) : Except VerifyError Unit :=
  verifySignature decode check p.body (Proof.signatureTrimmed p)

/-- `IdType` in id.rs. -/
inductive IdType
  | crev
deriving DecidableEq, Repr

/-- Public CrevId (`PubId` in id.rs), with the raw public-key bytes. -/
structure PubId where
  url : List Char
  type_ : IdType
  id : List Nat
deriving DecidableEq, Repr

/-- `PubId::new`. -/
def PubId.new (url : List Char) (id : List Nat) : PubId := ⟨url, IdType.crev, id⟩

/-- Raw ed25519 secret key (external `ed25519_dalek::SecretKey`). -/
structure SecretKey where
  bytes : List Nat
deriving DecidableEq, Repr

/-- Raw ed25519 public key (external `ed25519_dalek::PublicKey`). -/
structure PublicKey where
  bytes : List Nat
deriving DecidableEq, Repr

/-- Keypair (external `ed25519_dalek::Keypair`). -/
structure Keypair where
  secret : SecretKey
  public : PublicKey
deriving DecidableEq, Repr

/-- Own (secret-holding) identity (`OwnId` in id.rs). -/
structure OwnId where
  id : PubId
  keypair : Keypair
deriving DecidableEq, Repr

/-- Key-material failure named by the spec (§4.1, §7). -/
inductive KeyError
  | invalidKeyMaterial
deriving DecidableEq, Repr

/-- Modelled from the spec: the external `SecretKey::from_bytes` of the
ed25519 library, which fails with invalid key material unless the input has
exactly the secret-key byte length (32). -/
def secretKeyFromBytes (b : List Nat) : Except KeyError SecretKey :=
  if b.length = 32 then Except.ok ⟨b⟩ else Except.error KeyError.invalidKeyMaterial

/-- `OwnId::new` (id.rs): decode the secret bytes, recompute the public key
from the secret, and wrap both. The public-key derivation
(`PublicKey::from_secret` with its blake2b binding, an external capability)
is passed in abstractly. -/
def OwnId.new (derive : SecretKey → PublicKey) (url : List Char) (sec : List Nat) :
    Except KeyError OwnId :=
  match secretKeyFromBytes sec with
  | Except.ok sk => Except.ok ⟨PubId.new url (derive sk).bytes, ⟨sk, derive sk⟩⟩
  | Except.error e => Except.error e

/-- Outcome of a Rust computation that may panic. -/
inductive PanicOr (α : Type)
  | panic
  | value (a : α)

/-- `OwnId::generate` (id.rs): `OsRng::new().unwrap()` panics when the
secure-randomness source is unavailable; otherwise the generated keypair is
wrapped, with the public key recorded in the public id. The RNG constructor
result and the keypair generation are passed in abstractly. -/
def OwnId.generate {R : Type} (osrngNew : Except Unit R) (kpGen : R → Keypair)
    (url : List Char) : PanicOr OwnId :=
  match osrngNew with
  | Except.error _ => PanicOr.panic
  | Except.ok rng => PanicOr.value ⟨PubId.new url (kpGen rng).public.bytes, kpGen rng⟩

/-! Basic lemmas about byte lengths, joined lines, and the line discipline. -/

lemma utf8Len_append (a b : List Char) : utf8Len (a ++ b) = utf8Len a + utf8Len b := by
  simp [utf8Len]

lemma joinLines_nil : joinLines [] = [] := rfl

lemma joinLines_cons (l : Line) (ls : List Line) :
    joinLines (l :: ls) = l ++ '\n' :: joinLines ls := rfl

lemma joinLines_append (a b : List Line) :
    joinLines (a ++ b) = joinLines a ++ joinLines b := by
  induction a with
  | nil => rfl
  | cons l ls ih => simp [joinLines_cons, ih]

lemma stripCR_of_no_cr {l : List Char} (h : l.getLast? ≠ some '\r') : stripCR l = l := by
  simp [stripCR, h]

lemma linesAux_append {l : List Char} (hn : '\n' ∉ l) (acc rest : List Char) :
    linesAux acc (l ++ '\n' :: rest) = stripCR (acc ++ l) :: linesAux [] rest := by
  induction l generalizing acc with
  | nil => simp [linesAux]
  | cons c cs ih =>
    have hc : c ≠ '\n' := fun h => hn (h ▸ List.mem_cons_self c cs)
    have hcs : '\n' ∉ cs := fun h => hn (List.mem_cons_of_mem c h)
    simp only [List.cons_append, linesAux, if_neg hc, List.append_eq]
    rw [ih hcs]
    simp

/-- Splitting a newline-terminated join of benign lines recovers exactly
those lines. -/
lemma rustLines_joinLines {L : List Line}
    (h : ∀ l ∈ L, '\n' ∉ l ∧ l.getLast? ≠ some '\r') :
    rustLines (joinLines L) = L := by
  induction L with
  | nil => rfl
  | cons l ls ih =>
    have hl := h l (List.mem_cons_self l ls)
    have hls : ∀ x ∈ ls, '\n' ∉ x ∧ x.getLast? ≠ some '\r' :=
      fun x hx => h x (List.mem_cons_of_mem l hx)
    show linesAux [] (l ++ '\n' :: joinLines ls) = l :: ls
    rw [linesAux_append hl.1]
    rw [List.nil_append, stripCR_of_no_cr hl.2]
    exact congrArg (l :: ·) (ih hls)

/-! Step lemmas for the parser state machine. -/

lemma processLine_none_blank {line : Line} (h : trimChars line = [])
    (b s : List Char) (t : ProofType) (ps : List Serialized) :
    processLine ⟨Stage.none, b, s, t, ps⟩ line = Except.ok ⟨Stage.none, b, s, t, ps⟩ := by
  simp [processLine, h]

lemma processLine_none_begin {line : Line} {k : ProofType}
    (h : trimChars line = beginBlockC k)
    (b s : List Char) (t : ProofType) (ps : List Serialized) :
    processLine ⟨Stage.none, b, s, t, ps⟩ line = Except.ok ⟨Stage.body, b, s, k, ps⟩ := by
  cases k with
  | code =>
    have e1 : beginBlockC ProofType.code ≠ ([] : List Char) := by decide
    simp [processLine, h, e1]
  | trust =>
    have e1 : beginBlockC ProofType.trust ≠ ([] : List Char) := by decide
    have e2 : beginBlockC ProofType.trust ≠ beginBlockC ProofType.code := by decide
    simp [processLine, h, e1, e2]
  | package =>
    have e1 : beginBlockC ProofType.package ≠ ([] : List Char) := by decide
    have e2 : beginBlockC ProofType.package ≠ beginBlockC ProofType.code := by decide
    have e3 : beginBlockC ProofType.package ≠ beginBlockC ProofType.trust := by decide
    simp [processLine, h, e1, e2, e3]

lemma processLine_body_marker {line : Line} {t : ProofType}
    (h : trimChars line = beginSigC t) {b : List Char}
    (hb : utf8Len b ≤ MAX_PROOF_BODY_LENGTH)
    (s : List Char) (ps : List Serialized) :
    processLine ⟨Stage.body, b, s, t, ps⟩ line = Except.ok ⟨Stage.signature, b, s, t, ps⟩ := by
  simp [processLine, h, Nat.not_lt.mpr hb]

lemma processLine_body_content {line : Line} {t : ProofType}
    (h : trimChars line ≠ beginSigC t) {b : List Char}
    (hb : utf8Len (b ++ line ++ ['\n']) ≤ MAX_PROOF_BODY_LENGTH)
    (s : List Char) (ps : List Serialized) :
    processLine ⟨Stage.body, b, s, t, ps⟩ line
      = Except.ok ⟨Stage.body, b ++ line ++ ['\n'], s, t, ps⟩ := by
  have hb' : utf8Len (b ++ (line ++ ['\n'])) ≤ MAX_PROOF_BODY_LENGTH := by
    simpa [List.append_assoc] using hb
  simp [processLine, h, Nat.not_lt.mpr hb']

lemma processLine_sig_end {line : Line} {t : ProofType}
    (h : trimChars line = endBlockC t)
    (b s : List Char) (ps : List Serialized) :
    processLine ⟨Stage.signature, b, s, t, ps⟩ line
      = Except.ok ⟨Stage.none, [], [], t, ps ++ [⟨b, s, t⟩]⟩ := by
  simp [processLine, h, utf8Len]

lemma processLine_sig_content {line : Line} {t : ProofType}
    (h : trimChars line ≠ endBlockC t) {s : List Char}
    (hs : utf8Len (s ++ line ++ ['\n']) ≤ 2000)
    (b : List Char) (ps : List Serialized) :
    processLine ⟨Stage.signature, b, s, t, ps⟩ line
      = Except.ok ⟨Stage.signature, b, s ++ line ++ ['\n'], t, ps⟩ := by
  have hs' : utf8Len (s ++ (line ++ ['\n'])) ≤ 2000 := by
    simpa [List.append_assoc] using hs
  simp [processLine, h, Nat.not_lt.mpr hs']

/-! Run lemmas: folding the machine over structured line sequences. -/

lemma runFold_cons_ok {st st' : State} {l : Line}
    (h : processLine st l = Except.ok st') (ls : List Line) :
    runFold st (l :: ls) = runFold st' ls := by
  simp [runFold, h]

lemma runFold_cons_error {st : State} {l : Line} {e : ParseError}
    (h : processLine st l = Except.error e) (ls : List Line) :
    runFold st (l :: ls) = Except.error e := by
  simp [runFold, h]

lemma runFold_append (st : State) (xs ys : List Line) :
    runFold st (xs ++ ys)
      = match runFold st xs with
        | Except.ok st' => runFold st' ys
        | Except.error e => Except.error e := by
  induction xs generalizing st with
  | nil => simp [runFold]
  | cons l xs ih =>
    rw [List.cons_append]
    cases h : processLine st l with
    | ok st' => rw [runFold_cons_ok h, runFold_cons_ok h, ih st']
    | error e => rw [runFold_cons_error h, runFold_cons_error h]

/-- Folding non-marker content lines in the body stage appends exactly those
lines, each newline-terminated, to the body buffer. -/
lemma runFold_body_lines {t : ProofType} (bs : List Line)
    (hm : ∀ l ∈ bs, trimChars l ≠ beginSigC t) {b : List Char}
    (hsz : utf8Len (b ++ joinLines bs) ≤ MAX_PROOF_BODY_LENGTH)
    (s : List Char) (ps : List Serialized) (rest : List Line) :
    runFold ⟨Stage.body, b, s, t, ps⟩ (bs ++ rest)
      = runFold ⟨Stage.body, b ++ joinLines bs, s, t, ps⟩ rest := by
  induction bs generalizing b with
  | nil => simp [joinLines_nil]
  | cons l ls ih =>
    have hl : trimChars l ≠ beginSigC t := hm l (List.mem_cons_self l ls)
    have hls : ∀ x ∈ ls, trimChars x ≠ beginSigC t :=
      fun x hx => hm x (List.mem_cons_of_mem l hx)
    have hassoc : b ++ joinLines (l :: ls) = (b ++ l ++ ['\n']) ++ joinLines ls := by
      simp [joinLines_cons, List.append_assoc]
    have hstep : utf8Len (b ++ l ++ ['\n']) ≤ MAX_PROOF_BODY_LENGTH := by
      rw [hassoc, utf8Len_append] at hsz
      omega
    rw [List.cons_append, runFold_cons_ok (processLine_body_content hl hstep s ps)]
    rw [ih hls (by rw [← hassoc]; exact hsz)]
    rw [hassoc]

/-- Folding non-marker content lines in the signature stage appends exactly
those lines, each newline-terminated, to the signature buffer. -/
lemma runFold_sig_lines {t : ProofType} (ss : List Line)
    (hm : ∀ l ∈ ss, trimChars l ≠ endBlockC t) {s : List Char}
    (hsz : utf8Len (s ++ joinLines ss) ≤ 2000)
    (b : List Char) (ps : List Serialized) (rest : List Line) :
    runFold ⟨Stage.signature, b, s, t, ps⟩ (ss ++ rest)
      = runFold ⟨Stage.signature, b, s ++ joinLines ss, t, ps⟩ rest := by
  induction ss generalizing s with
  | nil => simp [joinLines_nil]
  | cons l ls ih =>
    have hl : trimChars l ≠ endBlockC t := hm l (List.mem_cons_self l ls)
    have hls : ∀ x ∈ ls, trimChars x ≠ endBlockC t :=
      fun x hx => hm x (List.mem_cons_of_mem l hx)
    have hassoc : s ++ joinLines (l :: ls) = (s ++ l ++ ['\n']) ++ joinLines ls := by
      simp [joinLines_cons, List.append_assoc]
    have hstep : utf8Len (s ++ l ++ ['\n']) ≤ 2000 := by
      rw [hassoc, utf8Len_append] at hsz
      omega
    rw [List.cons_append, runFold_cons_ok (processLine_sig_content hl hstep b ps)]
    rw [ih hls (by rw [← hassoc]; exact hsz)]
    rw [hassoc]

/-- Blank lines are ignored in the Outside stage. -/
lemma runFold_blank_lines (blanks : List Line)
    (hb : ∀ l ∈ blanks, trimChars l = [])
    (b s : List Char) (t : ProofType) (ps : List Serialized) (rest : List Line) :
    runFold ⟨Stage.none, b, s, t, ps⟩ (blanks ++ rest)
      = runFold ⟨Stage.none, b, s, t, ps⟩ rest := by
  induction blanks with
  | nil => simp
  | cons l ls ih =>
    have hl : trimChars l = [] := hb l (List.mem_cons_self l ls)
    have hls : ∀ x ∈ ls, trimChars x = [] := fun x hx => hb x (List.mem_cons_of_mem l hx)
    rw [List.cons_append, runFold_cons_ok (processLine_none_blank hl b s t ps)]
    exact ih hls

/-! Well-formed raw blocks and the completeness direction of the parser. -/

/-- A well-formed raw envelope block in an input stream: a header line that
trims to the begin-block marker of its kind, content lines, a line trimming
to the begin-signature marker, signature lines, a line trimming to the
end-block marker, and trailing blank lines. -/
structure RawBlock where
  k : ProofType
  header : Line
  bodyLines : List Line
  sigLine : Line
  sigLines : List Line
  endLine : Line
  blanks : List Line

/-- The lines a raw block contributes to the stream. -/
def RawBlock.lines (rb : RawBlock) : List Line :=
  rb.header :: (rb.bodyLines ++ rb.sigLine :: (rb.sigLines ++ rb.endLine :: rb.blanks))

/-- Well-formedness of a raw block: the three marker lines trim-match the
markers of its kind, content lines do not collide with the terminating
markers, interleaved blank lines are blank, and the accumulated body and
signature stay within the size limits. -/
def RawBlock.ok (rb : RawBlock) : Prop :=
  trimChars rb.header = beginBlockC rb.k
  ∧ (∀ l ∈ rb.bodyLines, trimChars l ≠ beginSigC rb.k)
  ∧ trimChars rb.sigLine = beginSigC rb.k
  ∧ (∀ l ∈ rb.sigLines, trimChars l ≠ endBlockC rb.k)
  ∧ trimChars rb.endLine = endBlockC rb.k
  ∧ (∀ l ∈ rb.blanks, trimChars l = [])
  ∧ utf8Len (joinLines rb.bodyLines) ≤ MAX_PROOF_BODY_LENGTH
  ∧ utf8Len (joinLines rb.sigLines) ≤ 2000

instance RawBlock.decOk (rb : RawBlock) : Decidable rb.ok := by
  unfold RawBlock.ok
  infer_instance

/-- The triplet a well-formed raw block parses to. -/
def RawBlock.toSerialized (rb : RawBlock) : Serialized :=
  ⟨joinLines rb.bodyLines, joinLines rb.sigLines, rb.k⟩

/-- Processing one well-formed block from the Outside stage emits exactly its
triplet and returns to the Outside stage with cleared buffers. -/
lemma runFold_block {rb : RawBlock} (h : rb.ok) (t : ProofType)
    (ps : List Serialized) (rest : List Line) :
    runFold ⟨Stage.none, [], [], t, ps⟩ (rb.lines ++ rest)
      = runFold ⟨Stage.none, [], [], rb.k, ps ++ [rb.toSerialized]⟩ rest := by
  obtain ⟨h1, h2, h3, h4, h5, h6, h7, h8⟩ := h
  rw [RawBlock.lines, List.cons_append,
    runFold_cons_ok (processLine_none_begin h1 [] [] t ps), List.append_assoc,
    runFold_body_lines rb.bodyLines h2 (by simpa using h7) [] ps _]
  simp only [List.nil_append]
  rw [List.cons_append, runFold_cons_ok (processLine_body_marker h3 h7 [] ps),
    List.append_assoc,
    runFold_sig_lines rb.sigLines h4 (by simpa using h8) _ ps _]
  simp only [List.nil_append]
  rw [List.cons_append, runFold_cons_ok (processLine_sig_end h5 _ _ ps),
    runFold_blank_lines rb.blanks h6 _ _ _ _ _]
  rfl

/-- Lines contributed by a list of raw blocks. -/
def blocksLines : List RawBlock → List Line
  | [] => []
  | rb :: rbs => rb.lines ++ blocksLines rbs

lemma runFold_blocks (rbs : List RawBlock) (h : ∀ rb ∈ rbs, rb.ok)
    (t : ProofType) (ps : List Serialized) (rest : List Line) :
    ∃ t', runFold ⟨Stage.none, [], [], t, ps⟩ (blocksLines rbs ++ rest)
      = runFold ⟨Stage.none, [], [], t', ps ++ rbs.map RawBlock.toSerialized⟩ rest := by
  induction rbs generalizing t ps with
  | nil => exact ⟨t, by simp [blocksLines]⟩
  | cons rb rbs ih =>
    have hrb := h rb (List.mem_cons_self _ _)
    have hrbs : ∀ x ∈ rbs, x.ok := fun x hx => h x (List.mem_cons_of_mem _ hx)
    obtain ⟨t', ht'⟩ := ih hrbs rb.k (ps ++ [rb.toSerialized])
    refine ⟨t', ?_⟩
    rw [blocksLines, List.append_assoc, runFold_block hrb t ps, ht']
    simp

/-- Completeness of the codec: a stream made of leading blank lines followed
by well-formed blocks parses to exactly the corresponding triplets, in input
order. -/
lemma parseLines_blocks (pre : List Line) (hpre : ∀ l ∈ pre, trimChars l = [])
    (rbs : List RawBlock) (h : ∀ rb ∈ rbs, rb.ok) :
    parseLines (pre ++ blocksLines rbs) = Except.ok (rbs.map RawBlock.toSerialized) := by
  have h1 : runFold initState (pre ++ blocksLines rbs)
      = runFold ⟨Stage.none, [], [], ProofType.trust, []⟩ (blocksLines rbs) := by
    rw [initState, runFold_blank_lines pre hpre]
  obtain ⟨t', ht'⟩ := runFold_blocks rbs h ProofType.trust [] []
  rw [List.append_nil] at ht'
  simp only [parseLines, h1, ht', runFold]
  simp [finishState]

/-! Soundness direction: overflow step lemmas, `runAll`, and decomposition
of successful runs. -/

lemma processLine_body_overflow_marker {line : Line} {t : ProofType}
    (h : trimChars line = beginSigC t) {b : List Char}
    (hb : utf8Len b > MAX_PROOF_BODY_LENGTH) (s : List Char) (ps : List Serialized) :
    processLine ⟨Stage.body, b, s, t, ps⟩ line = Except.error ParseError.bodyTooLong := by
  simp [processLine, h, hb]

lemma processLine_body_overflow {line : Line} {t : ProofType}
    (h : trimChars line ≠ beginSigC t) {b : List Char}
    (hb : utf8Len (b ++ line ++ ['\n']) > MAX_PROOF_BODY_LENGTH)
    (s : List Char) (ps : List Serialized) :
    processLine ⟨Stage.body, b, s, t, ps⟩ line = Except.error ParseError.bodyTooLong := by
  have hb' : utf8Len (b ++ (line ++ ['\n'])) > MAX_PROOF_BODY_LENGTH := by
    simpa [List.append_assoc] using hb
  simp [processLine, h, hb']

lemma processLine_sig_overflow {line : Line} {t : ProofType}
    (h : trimChars line ≠ endBlockC t) {s : List Char}
    (hs : utf8Len (s ++ line ++ ['\n']) > 2000) (b : List Char) (ps : List Serialized) :
    processLine ⟨Stage.signature, b, s, t, ps⟩ line
      = Except.error ParseError.signatureTooLong := by
  have hs' : utf8Len (s ++ (line ++ ['\n'])) > 2000 := by
    simpa [List.append_assoc] using hs
  simp [processLine, h, hs']

/-- Run the machine from a state and finish, as `Serialized::parse` does. -/
def runAll (st : State) (ls : List Line) : Except ParseError (List Serialized) :=
  match runFold st ls with
  | Except.ok st' => finishState st'
  | Except.error e => Except.error e

lemma parseLines_eq_runAll (ls : List Line) : parseLines ls = runAll initState ls := rfl

lemma runAll_nil (st : State) : runAll st [] = finishState st := rfl

lemma runAll_cons_ok {st st' : State} {l : Line}
    (h : processLine st l = Except.ok st') (ls : List Line) :
    runAll st (l :: ls) = runAll st' ls := by
  simp [runAll, runFold_cons_ok h]

lemma runAll_cons_error {st : State} {l : Line} {e : ParseError}
    (h : processLine st l = Except.error e) (ls : List Line) :
    runAll st (l :: ls) = Except.error e := by
  simp [runAll, runFold_cons_error h]

/-- A successful run that starts in the body stage first sees some non-marker
content lines (accumulated verbatim with trailing newlines) and then the
begin-signature marker. -/
lemma runAll_body_split : ∀ (ls : List Line) {t : ProofType} (b s : List Char)
    (ps : List Serialized) {qs : List Serialized},
    runAll ⟨Stage.body, b, s, t, ps⟩ ls = Except.ok qs →
    ∃ bs m rest, ls = bs ++ m :: rest
      ∧ (∀ l ∈ bs, trimChars l ≠ beginSigC t)
      ∧ trimChars m = beginSigC t
      ∧ runAll ⟨Stage.signature, b ++ joinLines bs, s, t, ps⟩ rest = Except.ok qs := by
  intro ls
  induction ls with
  | nil =>
    intro t b s ps qs h
    simp [runAll, runFold, finishState] at h
  | cons l ls ih =>
    intro t b s ps qs h
    by_cases hm : trimChars l = beginSigC t
    · by_cases hsz : utf8Len b ≤ MAX_PROOF_BODY_LENGTH
      · refine ⟨[], l, ls, by simp, by simp, hm, ?_⟩
        rw [runAll_cons_ok (processLine_body_marker hm hsz s ps)] at h
        simpa [joinLines_nil] using h
      · rw [runAll_cons_error
          (processLine_body_overflow_marker hm (Nat.not_le.mp hsz) s ps)] at h
        exact Except.noConfusion h
    · by_cases hsz : utf8Len (b ++ l ++ ['\n']) ≤ MAX_PROOF_BODY_LENGTH
      · rw [runAll_cons_ok (processLine_body_content hm hsz s ps)] at h
        obtain ⟨bs, m, rest, hls, hbs, hmm, hrun⟩ := ih (b ++ l ++ ['\n']) s ps h
        refine ⟨l :: bs, m, rest, by rw [hls]; rfl, ?_, hmm, ?_⟩
        · intro x hx
          rcases List.mem_cons.mp hx with hx | hx
          · exact hx ▸ hm
          · exact hbs x hx
        · have heq : b ++ joinLines (l :: bs) = (b ++ l ++ ['\n']) ++ joinLines bs := by
            simp [joinLines_cons, List.append_assoc]
          rw [heq]
          exact hrun
      · rw [runAll_cons_error
          (processLine_body_overflow hm (Nat.not_le.mp hsz) s ps)] at h
        exact Except.noConfusion h

/-- A successful run that starts in the signature stage first sees some
non-marker content lines (accumulated verbatim with trailing newlines) and
then the end-block marker, emitting the finished triplet. -/
lemma runAll_sig_split : ∀ (ls : List Line) {t : ProofType} (b s : List Char)
    (ps : List Serialized) {qs : List Serialized},
    runAll ⟨Stage.signature, b, s, t, ps⟩ ls = Except.ok qs →
    ∃ ss e rest, ls = ss ++ e :: rest
      ∧ (∀ l ∈ ss, trimChars l ≠ endBlockC t)
      ∧ trimChars e = endBlockC t
      ∧ runAll ⟨Stage.none, [], [], t, ps ++ [⟨b, s ++ joinLines ss, t⟩]⟩ rest
          = Except.ok qs := by
  intro ls
  induction ls with
  | nil =>
    intro t b s ps qs h
    simp [runAll, runFold, finishState] at h
  | cons l ls ih =>
    intro t b s ps qs h
    by_cases hm : trimChars l = endBlockC t
    · refine ⟨[], l, ls, by simp, by simp, hm, ?_⟩
      rw [runAll_cons_ok (processLine_sig_end hm b s ps)] at h
      simpa [joinLines_nil] using h
    · by_cases hsz : utf8Len (s ++ l ++ ['\n']) ≤ 2000
      · rw [runAll_cons_ok (processLine_sig_content hm hsz b ps)] at h
        obtain ⟨ss, e, rest, hls, hss, hee, hrun⟩ := ih b (s ++ l ++ ['\n']) ps h
        refine ⟨l :: ss, e, rest, by rw [hls]; rfl, ?_, hee, ?_⟩
        · intro x hx
          rcases List.mem_cons.mp hx with hx | hx
          · exact hx ▸ hm
          · exact hss x hx
        · have heq : s ++ joinLines (l :: ss) = (s ++ l ++ ['\n']) ++ joinLines ss := by
            simp [joinLines_cons, List.append_assoc]
          rw [heq]
          exact hrun
      · rw [runAll_cons_error
          (processLine_sig_overflow hm (Nat.not_le.mp hsz) b ps)] at h
        exact Except.noConfusion h

/-- The spec's transition table, as a relation between a line stream and the
triplets it denotes: any number of blank lines and well-formed blocks, where
each block's body and signature are the exact newline-terminated
concatenations of the content lines between its trim-matched markers. -/
inductive BlockSeq : List Line → List Serialized → Prop
  | nil : BlockSeq [] []
  | blank {l : Line} {ls : List Line} {rs : List Serialized} :
      trimChars l = [] → BlockSeq ls rs → BlockSeq (l :: ls) rs
  | block {k : ProofType} {h : Line} {bs : List Line} {m : Line} {ss : List Line}
      {e : Line} {ls : List Line} {rs : List Serialized} :
      trimChars h = beginBlockC k →
      (∀ l ∈ bs, trimChars l ≠ beginSigC k) →
      trimChars m = beginSigC k →
      (∀ l ∈ ss, trimChars l ≠ endBlockC k) →
      trimChars e = endBlockC k →
      BlockSeq ls rs →
      BlockSeq (h :: (bs ++ m :: (ss ++ e :: ls))) (⟨joinLines bs, joinLines ss, k⟩ :: rs)

/-- One whole block step of the soundness induction. -/
lemma runAll_none_sound_step {n : Nat}
    (ih : ∀ ls : List Line, ls.length ≤ n → ∀ (t : ProofType) (ps : List Serialized)
      {qs : List Serialized}, runAll ⟨Stage.none, [], [], t, ps⟩ ls = Except.ok qs →
      ∃ rs, qs = ps ++ rs ∧ BlockSeq ls rs)
    {l : Line} {ls' : List Line} {t : ProofType} {ps qs : List Serialized}
    {k : ProofType} (hk : trimChars l = beginBlockC k)
    (hlen : ls'.length ≤ n)
    (h : runAll ⟨Stage.none, [], [], t, ps⟩ (l :: ls') = Except.ok qs) :
    ∃ rs, qs = ps ++ rs ∧ BlockSeq (l :: ls') rs := by
  rw [runAll_cons_ok (processLine_none_begin hk [] [] t ps)] at h
  obtain ⟨bs, m, rest, hls, hbs, hm, h2⟩ := runAll_body_split ls' [] [] ps h
  simp only [List.nil_append] at h2
  obtain ⟨ss, e, rest2, hrest, hss, he, h3⟩ := runAll_sig_split rest (joinLines bs) [] ps h2
  simp only [List.nil_append] at h3
  have hlen2 : rest2.length ≤ n := by
    subst hrest
    subst hls
    simp [List.length_append] at hlen
    omega
  obtain ⟨rs, hqs, hseq⟩ := ih rest2 hlen2 k (ps ++ [⟨joinLines bs, joinLines ss, k⟩]) h3
  refine ⟨⟨joinLines bs, joinLines ss, k⟩ :: rs, ?_, ?_⟩
  · rw [hqs]
    simp
  · rw [hls, hrest]
    exact BlockSeq.block hk hbs hm hss he hseq

/-- Soundness core: a successful run from the Outside stage with empty
buffers appends exactly a `BlockSeq` denotation of its lines. -/
lemma runAll_none_sound : ∀ (n : Nat) (ls : List Line), ls.length ≤ n →
    ∀ (t : ProofType) (ps : List Serialized) {qs : List Serialized},
    runAll ⟨Stage.none, [], [], t, ps⟩ ls = Except.ok qs →
    ∃ rs, qs = ps ++ rs ∧ BlockSeq ls rs := by
  intro n
  induction n with
  | zero =>
    intro ls hlen t ps qs h
    obtain rfl : ls = [] := List.length_eq_zero.mp (Nat.le_zero.mp hlen)
    have hq : ps = qs := by simpa [runAll, runFold, finishState] using h
    exact ⟨[], by simp [hq], BlockSeq.nil⟩
  | succ n ih =>
    intro ls hlen t ps qs h
    cases ls with
    | nil =>
      have hq : ps = qs := by simpa [runAll, runFold, finishState] using h
      exact ⟨[], by simp [hq], BlockSeq.nil⟩
    | cons l ls' =>
      have hlen' : ls'.length ≤ n := by
        simp at hlen
        omega
      by_cases hbl : trimChars l = []
      · rw [runAll_cons_ok (processLine_none_blank hbl [] [] t ps)] at h
        obtain ⟨rs, hqs, hseq⟩ := ih ls' hlen' t ps h
        exact ⟨rs, hqs, BlockSeq.blank hbl hseq⟩
      · by_cases hc : trimChars l = beginBlockC ProofType.code
        · exact runAll_none_sound_step ih hc hlen' h
        · by_cases htr : trimChars l = beginBlockC ProofType.trust
          · exact runAll_none_sound_step ih htr hlen' h
          · by_cases hp : trimChars l = beginBlockC ProofType.package
            · exact runAll_none_sound_step ih hp hlen' h
            · have herr : processLine ⟨Stage.none, [], [], t, ps⟩ l
                  = Except.error ParseError.startMarkerExpected := by
                simp [processLine, hbl, hc, htr, hp]
              rw [runAll_cons_error herr] at h
              exact Except.noConfusion h

/-- Soundness of the codec at the line level. -/
lemma parseLines_sound {ls : List Line} {qs : List Serialized}
    (h : parseLines ls = Except.ok qs) : BlockSeq ls qs := by
  have h' : runAll ⟨Stage.none, [], [], ProofType.trust, []⟩ ls = Except.ok qs := h
  obtain ⟨rs, hqs, hseq⟩ := runAll_none_sound ls.length ls (le_refl _) ProofType.trust [] h'
  rw [hqs, List.nil_append]
  exact hseq

/-! Machine invariant for the Outside stage, and consequences of `BlockSeq`. -/

/-- In the Outside stage the body and signature buffers are empty. -/
def OutsideClear (st : State) : Prop :=
  st.stage = Stage.none → st.body = [] ∧ st.signature = []

lemma processLine_outsideClear {st st' : State} {l : Line}
    (h : processLine st l = Except.ok st') (hst : OutsideClear st) :
    OutsideClear st' := by
  cases st with
  | mk stage b s t ps =>
    cases stage <;> simp only [processLine] at h <;> repeat' split at h
    all_goals
      first
        | exact Except.noConfusion h
        | (cases h; intro hx; exact ⟨rfl, rfl⟩)
        | (cases h; intro hx; exact Stage.noConfusion hx)
        | (cases h; exact hst)

lemma runFold_outsideClear : ∀ (ls : List Line) {st st' : State},
    runFold st ls = Except.ok st' → OutsideClear st → OutsideClear st' := by
  intro ls
  induction ls with
  | nil =>
    intro st st' h hst
    cases h
    exact hst
  | cons l ls ih =>
    intro st st' h hst
    cases hpl : processLine st l with
    | ok st1 =>
      rw [runFold_cons_ok hpl] at h
      exact ih h (processLine_outsideClear hpl hst)
    | error e =>
      rw [runFold_cons_error hpl] at h
      exact Except.noConfusion h

/-- Every triplet a `BlockSeq` denotes takes its kind from a line of the
stream that trims to that kind's begin-block marker. -/
lemma BlockSeq.kind_from_marker {ls : List Line} {rs : List Serialized}
    (h : BlockSeq ls rs) : ∀ p ∈ rs, ∃ l ∈ ls, trimChars l = beginBlockC p.type_ := by
  induction h with
  | nil =>
    intro p hp
    exact absurd hp (List.not_mem_nil p)
  | blank hbl _ ih =>
    intro p hp
    obtain ⟨l, hl, hml⟩ := ih p hp
    exact ⟨l, List.mem_cons_of_mem _ hl, hml⟩
  | block hk hbs hm hss he _ ih =>
    intro p hp
    rcases List.mem_cons.mp hp with rfl | hp
    · exact ⟨_, List.mem_cons_self _ _, hk⟩
    · obtain ⟨l, hl, hml⟩ := ih p hp
      exact ⟨l, List.mem_cons_of_mem _ (List.mem_append_right _
        (List.mem_cons_of_mem _ (List.mem_append_right _
          (List.mem_cons_of_mem _ hl)))), hml⟩

/-! Overflow runs and truncated runs. -/

/-- Once the accumulated body is bound to cross the size limit within the
coming content lines, the fold fails with the body-too-long error. -/
lemma runFold_body_overflow_run : ∀ (bs : List Line) {t : ProofType} {b : List Char},
    (∀ l ∈ bs, trimChars l ≠ beginSigC t) →
    utf8Len b ≤ MAX_PROOF_BODY_LENGTH →
    utf8Len (b ++ joinLines bs) > MAX_PROOF_BODY_LENGTH →
    ∀ (s : List Char) (ps : List Serialized) (rest : List Line),
    runFold ⟨Stage.body, b, s, t, ps⟩ (bs ++ rest) = Except.error ParseError.bodyTooLong := by
  intro bs
  induction bs with
  | nil =>
    intro t b _ hb hover s ps rest
    exfalso
    simp [joinLines_nil] at hover
    omega
  | cons l ls ih =>
    intro t b hm hb hover s ps rest
    have hl := hm l (List.mem_cons_self _ _)
    have hls : ∀ x ∈ ls, trimChars x ≠ beginSigC t :=
      fun x hx => hm x (List.mem_cons_of_mem _ hx)
    have hsplit : b ++ joinLines (l :: ls) = (b ++ l ++ ['\n']) ++ joinLines ls := by
      simp [joinLines_cons, List.append_assoc]
    by_cases hsz : utf8Len (b ++ l ++ ['\n']) ≤ MAX_PROOF_BODY_LENGTH
    · rw [List.cons_append, runFold_cons_ok (processLine_body_content hl hsz s ps)]
      refine ih hls hsz ?_ s ps rest
      rw [hsplit] at hover
      exact hover
    · rw [List.cons_append,
        runFold_cons_error (processLine_body_overflow hl (Nat.not_le.mp hsz) s ps)]

/-- Once the accumulated signature is bound to cross the size limit within
the coming content lines, the fold fails with the signature-too-long error. -/
lemma runFold_sig_overflow_run : ∀ (ss : List Line) {t : ProofType} {s : List Char},
    (∀ l ∈ ss, trimChars l ≠ endBlockC t) →
    utf8Len s ≤ 2000 →
    utf8Len (s ++ joinLines ss) > 2000 →
    ∀ (b : List Char) (ps : List Serialized) (rest : List Line),
    runFold ⟨Stage.signature, b, s, t, ps⟩ (ss ++ rest)
      = Except.error ParseError.signatureTooLong := by
  intro ss
  induction ss with
  | nil =>
    intro t s _ hs hover b ps rest
    exfalso
    simp [joinLines_nil] at hover
    omega
  | cons l ls ih =>
    intro t s hm hs hover b ps rest
    have hl := hm l (List.mem_cons_self _ _)
    have hls : ∀ x ∈ ls, trimChars x ≠ endBlockC t :=
      fun x hx => hm x (List.mem_cons_of_mem _ hx)
    have hsplit : s ++ joinLines (l :: ls) = (s ++ l ++ ['\n']) ++ joinLines ls := by
      simp [joinLines_cons, List.append_assoc]
    by_cases hsz : utf8Len (s ++ l ++ ['\n']) ≤ 2000
    · rw [List.cons_append, runFold_cons_ok (processLine_sig_content hl hsz b ps)]
      refine ih hls hsz ?_ b ps rest
      rw [hsplit] at hover
      exact hover
    · rw [List.cons_append,
        runFold_cons_error (processLine_sig_overflow hl (Nat.not_le.mp hsz) b ps)]

/-! Shift lemmas: processing is independent of already-emitted proofs and,
in the Outside stage, of the current kind field. -/

lemma processLine_proofs_shift (st : State) (l : Line) (ps0 : List Serialized) :
    processLine { st with proofs := ps0 ++ st.proofs } l
      = (processLine st l).map fun s2 => { s2 with proofs := ps0 ++ s2.proofs } := by
  cases st with
  | mk stage b s t ps =>
    cases stage with
    | none =>
      by_cases h1 : trimChars l = []
      · simp [processLine, h1, Except.map]
      · have e1 : beginBlockC ProofType.code ≠ ([] : List Char) := by decide
        have e2 : beginBlockC ProofType.trust ≠ ([] : List Char) := by decide
        have e3 : beginBlockC ProofType.package ≠ ([] : List Char) := by decide
        have e4 : beginBlockC ProofType.trust ≠ beginBlockC ProofType.code := by decide
        have e5 : beginBlockC ProofType.package ≠ beginBlockC ProofType.code := by decide
        have e6 : beginBlockC ProofType.package ≠ beginBlockC ProofType.trust := by decide
        by_cases h2 : trimChars l = beginBlockC ProofType.code
        · simp [processLine, h1, h2, e1, Except.map]
        · by_cases h3 : trimChars l = beginBlockC ProofType.trust
          · simp [processLine, h1, h2, h3, e2, e4, Except.map]
          · by_cases h4 : trimChars l = beginBlockC ProofType.package
            · simp [processLine, h1, h2, h3, h4, e3, e5, e6, Except.map]
            · simp [processLine, h1, h2, h3, h4, Except.map]
    | body =>
      by_cases hm : trimChars l = beginSigC t
      · by_cases hsz : utf8Len b > MAX_PROOF_BODY_LENGTH
        · simp [processLine, hm, hsz, Except.map]
        · simp [processLine, hm, hsz, Except.map]
      · by_cases hsz : utf8Len (b ++ (l ++ ['\n'])) > MAX_PROOF_BODY_LENGTH
        · simp [processLine, hm, hsz, Except.map]
        · simp [processLine, hm, hsz, Except.map]
    | signature =>
      by_cases hm : trimChars l = endBlockC t
      · simp [processLine, hm, Except.map, utf8Len, List.append_assoc]
      · by_cases hsz : utf8Len (s ++ (l ++ ['\n'])) > 2000
        · simp [processLine, hm, hsz, Except.map]
        · simp [processLine, hm, hsz, Except.map]

lemma runFold_proofs_shift : ∀ (ls : List Line) (st : State) (ps0 : List Serialized),
    runFold { st with proofs := ps0 ++ st.proofs } ls
      = (runFold st ls).map fun s2 => { s2 with proofs := ps0 ++ s2.proofs } := by
  intro ls
  induction ls with
  | nil =>
    intro st ps0
    rfl
  | cons l ls ih =>
    intro st ps0
    cases hpl : processLine st l with
    | ok st1 =>
      have hpl' : processLine { st with proofs := ps0 ++ st.proofs } l
          = Except.ok { st1 with proofs := ps0 ++ st1.proofs } := by
        rw [processLine_proofs_shift, hpl]
        rfl
      rw [runFold_cons_ok hpl, runFold_cons_ok hpl']
      exact ih st1 ps0
    | error e =>
      have hpl' : processLine { st with proofs := ps0 ++ st.proofs } l
          = Except.error e := by
        rw [processLine_proofs_shift, hpl]
        rfl
      rw [runFold_cons_error hpl, runFold_cons_error hpl']
      rfl

lemma runAll_none_type_irrel : ∀ (ls : List Line) (b s : List Char)
    (t t' : ProofType) (ps : List Serialized),
    runAll ⟨Stage.none, b, s, t, ps⟩ ls = runAll ⟨Stage.none, b, s, t', ps⟩ ls := by
  intro ls
  induction ls with
  | nil =>
    intro b s t t' ps
    rfl
  | cons l ls ih =>
    intro b s t t' ps
    by_cases h1 : trimChars l = []
    · rw [runAll_cons_ok (processLine_none_blank h1 b s t ps),
        runAll_cons_ok (processLine_none_blank h1 b s t' ps)]
      exact ih b s t t' ps
    · by_cases h2 : trimChars l = beginBlockC ProofType.code
      · rw [runAll_cons_ok (processLine_none_begin h2 b s t ps),
          runAll_cons_ok (processLine_none_begin h2 b s t' ps)]
      · by_cases h3 : trimChars l = beginBlockC ProofType.trust
        · rw [runAll_cons_ok (processLine_none_begin h3 b s t ps),
            runAll_cons_ok (processLine_none_begin h3 b s t' ps)]
        · by_cases h4 : trimChars l = beginBlockC ProofType.package
          · rw [runAll_cons_ok (processLine_none_begin h4 b s t ps),
              runAll_cons_ok (processLine_none_begin h4 b s t' ps)]
          · have e1 : processLine ⟨Stage.none, b, s, t, ps⟩ l
                = Except.error ParseError.startMarkerExpected := by
              simp [processLine, h1, h2, h3, h4]
            have e2 : processLine ⟨Stage.none, b, s, t', ps⟩ l
                = Except.error ParseError.startMarkerExpected := by
              simp [processLine, h1, h2, h3, h4]
            rw [runAll_cons_error e1, runAll_cons_error e2]

/-- Continuing the stream from a fresh Outside state behaves like a fresh
parse, with the already-emitted proofs prepended on success and the same
error on failure. -/
lemma runAll_none_shift (ls : List Line) (t : ProofType) (ps : List Serialized) :
    runAll ⟨Stage.none, [], [], t, ps⟩ ls = (parseLines ls).map fun rs => ps ++ rs := by
  rw [runAll_none_type_irrel ls [] [] t ProofType.trust ps]
  have hshift := runFold_proofs_shift ls initState ps
  simp only [initState, List.append_nil] at hshift
  cases hfold : runFold ⟨Stage.none, [], [], ProofType.trust, []⟩ ls with
  | ok st2 =>
    rw [hfold] at hshift
    have hini : runFold initState ls = Except.ok st2 := hfold
    have hL : runFold ⟨Stage.none, [], [], ProofType.trust, ps⟩ ls
        = Except.ok { st2 with proofs := ps ++ st2.proofs } := by
      rw [hshift]
      rfl
    have hpl : parseLines ls = finishState st2 := by
      simp [parseLines, hini]
    rw [hpl]
    show (match runFold ⟨Stage.none, [], [], ProofType.trust, ps⟩ ls with
      | Except.ok st' => finishState st'
      | Except.error e => Except.error e) = _
    rw [hL]
    by_cases hst : st2.stage = Stage.none
    · simp [finishState, hst, Except.map]
    · simp [finishState, hst, Except.map]
  | error e =>
    rw [hfold] at hshift
    have hini : runFold initState ls = Except.error e := hfold
    have hL : runFold ⟨Stage.none, [], [], ProofType.trust, ps⟩ ls = Except.error e := by
      rw [hshift]
      rfl
    have hpl : parseLines ls = Except.error e := by
      simp [parseLines, hini]
    rw [hpl]
    show (match runFold ⟨Stage.none, [], [], ProofType.trust, ps⟩ ls with
      | Except.ok st' => finishState st'
      | Except.error e => Except.error e) = _
    rw [hL]
    rfl

/-! Trim lemmas: whitespace padding around a string does not change its
trimmed form. -/

lemma dropWhile_ws_append {a : List Char} (ha : ∀ c ∈ a, c.isWhitespace)
    (s : List Char) :
    (a ++ s).dropWhile Char.isWhitespace = s.dropWhile Char.isWhitespace := by
  induction a with
  | nil => rfl
  | cons c cs ih =>
    have hc : c.isWhitespace := ha c (List.mem_cons_self _ _)
    have hcs : ∀ x ∈ cs, x.isWhitespace := fun x hx => ha x (List.mem_cons_of_mem _ hx)
    simp [List.dropWhile_cons, hc, ih hcs]

lemma trimL_ws_append {a : List Char} (ha : ∀ c ∈ a, c.isWhitespace) (s : List Char) :
    trimL (a ++ s) = trimL s :=
  dropWhile_ws_append ha s

lemma trimR_append_ws {b : List Char} (hb : ∀ c ∈ b, c.isWhitespace) (s : List Char) :
    trimR (s ++ b) = trimR s := by
  have hb' : ∀ c ∈ b.reverse, c.isWhitespace := fun c hc => hb c (List.mem_reverse.mp hc)
  simp only [trimR, List.reverse_append]
  rw [dropWhile_ws_append hb']

lemma trimL_eq_nil_iff {s : List Char} : trimL s = [] ↔ ∀ c ∈ s, c.isWhitespace := by
  simp [trimL, List.dropWhile_eq_nil_iff]

lemma dropWhile_append_of_ne_nil {p : Char → Bool} :
    ∀ {s : List Char}, s.dropWhile p ≠ [] → ∀ b : List Char,
      (s ++ b).dropWhile p = s.dropWhile p ++ b := by
  intro s
  induction s with
  | nil =>
    intro h b
    exact absurd rfl h
  | cons c cs ih =>
    intro h b
    by_cases hc : p c = true
    · simp only [List.dropWhile_cons, hc, if_true] at h ⊢
      rw [List.cons_append]
      simp only [List.dropWhile_cons, hc, if_true]
      exact ih h b
    · rw [List.cons_append]
      simp [List.dropWhile_cons, hc]

lemma trimChars_pad {a b : List Char} (ha : ∀ c ∈ a, c.isWhitespace)
    (hb : ∀ c ∈ b, c.isWhitespace) (s : List Char) :
    trimChars (a ++ s ++ b) = trimChars s := by
  rw [List.append_assoc]
  unfold trimChars
  rw [trimL_ws_append ha]
  by_cases hs : trimL s = []
  · have hws : ∀ c ∈ s, c.isWhitespace := trimL_eq_nil_iff.mp hs
    have hsb : trimL (s ++ b) = [] := by
      rw [trimL_eq_nil_iff]
      intro c hc
      rcases List.mem_append.mp hc with hc | hc
      · exact hws c hc
      · exact hb c hc
    rw [hs, hsb]
  · have hsplit : trimL (s ++ b) = trimL s ++ b := dropWhile_append_of_ne_nil hs b
    rw [hsplit, trimR_append_ws hb]

/-! Concrete facts about the marker lines. -/

lemma marker_lines_ok (k : ProofType) :
    ('\n' ∉ beginBlockC k ∧ (beginBlockC k).getLast? ≠ some '\r')
    ∧ ('\n' ∉ beginSigC k ∧ (beginSigC k).getLast? ≠ some '\r')
    ∧ ('\n' ∉ endBlockC k ∧ (endBlockC k).getLast? ≠ some '\r') := by
  cases k <;> exact ⟨⟨by decide, by decide⟩, ⟨by decide, by decide⟩, ⟨by decide, by decide⟩⟩

lemma marker_trim_fixed (k : ProofType) :
    trimChars (beginBlockC k) = beginBlockC k
    ∧ trimChars (beginSigC k) = beginSigC k
    ∧ trimChars (endBlockC k) = endBlockC k := by
  cases k <;> exact ⟨by decide, by decide, by decide⟩

lemma endBlock_ne_nil (k : ProofType) : endBlockC k ≠ [] := by
  cases k <;> decide

/-- C1 counterexample: the empty-body, empty-signature Trust triplet is
within both size limits, yet parsing its serialized text does not return the
triplet itself — the signature comes back as a single newline, because the
serializer appends a newline after the signature and the parser keeps that
blank line as signature content. -/
theorem c1_roundtrip_counterexample :
    Serialized.parse (Serialized.toChars ⟨[], [], ProofType.trust⟩)
      ≠ Except.ok [⟨[], [], ProofType.trust⟩] := by
  decide

/-- C1 (amended): for a triplet whose body and signature are newline-shaped
line joins, whose content lines carry no newline, no trailing carriage
return, and do not trim to the corresponding terminating marker, and whose
body is at most 32000 bytes and signature at most 1999 bytes, parsing the
serialized text yields exactly one triplet with byte-identical body and kind
and with exactly one newline appended to the signature. -/
theorem c1_roundtrip_amended (k : ProofType) (bs ss : List Line)
    (hbs : ∀ l ∈ bs, '\n' ∉ l ∧ l.getLast? ≠ some '\r' ∧ trimChars l ≠ beginSigC k)
    (hss : ∀ l ∈ ss, '\n' ∉ l ∧ l.getLast? ≠ some '\r' ∧ trimChars l ≠ endBlockC k)
    (hb : utf8Len (joinLines bs) ≤ 32000)
    (hs : utf8Len (joinLines ss) + 1 ≤ 2000) :
    Serialized.parse (Serialized.toChars ⟨joinLines bs, joinLines ss, k⟩)
      = Except.ok [⟨joinLines bs, joinLines ss ++ ['\n'], k⟩] := by
  have hmark := marker_lines_ok k
  have htrim := marker_trim_fixed k
  have htc : Serialized.toChars ⟨joinLines bs, joinLines ss, k⟩
      = joinLines (beginBlockC k :: (bs ++ beginSigC k :: (ss ++ [([] : Line), endBlockC k]))) := by
    simp [Serialized.toChars, joinLines_append, joinLines_cons, joinLines_nil, List.append_assoc]
  have hrl : rustLines (joinLines
      (beginBlockC k :: (bs ++ beginSigC k :: (ss ++ [([] : Line), endBlockC k]))))
      = beginBlockC k :: (bs ++ beginSigC k :: (ss ++ [([] : Line), endBlockC k])) := by
    apply rustLines_joinLines
    intro l hl
    rcases List.mem_cons.mp hl with rfl | hl
    · exact hmark.1
    rcases List.mem_append.mp hl with hl | hl
    · exact ⟨(hbs l hl).1, (hbs l hl).2.1⟩
    rcases List.mem_cons.mp hl with rfl | hl
    · exact hmark.2.1
    rcases List.mem_append.mp hl with hl | hl
    · exact ⟨(hss l hl).1, (hss l hl).2.1⟩
    rcases List.mem_cons.mp hl with rfl | hl
    · exact ⟨by decide, by decide⟩
    rcases List.mem_cons.mp hl with rfl | hl
    · exact hmark.2.2
    · exact absurd hl (List.not_mem_nil l)
  have hok : RawBlock.ok ⟨k, beginBlockC k, bs, beginSigC k, ss ++ [[]], endBlockC k, []⟩ := by
    refine ⟨htrim.1, ?_, htrim.2.1, ?_, htrim.2.2, ?_, hb, ?_⟩
    · intro l hl
      exact (hbs l hl).2.2
    · intro l hl
      rcases List.mem_append.mp hl with hl | hl
      · exact (hss l hl).2.2
      · rcases List.mem_cons.mp hl with rfl | hl
        · have h0 : trimChars ([] : Line) = [] := rfl
          rw [h0]
          exact fun hcontra => endBlock_ne_nil k hcontra.symm
        · exact absurd hl (List.not_mem_nil l)
    · intro l hl
      exact absurd hl (List.not_mem_nil l)
    · have h1 : utf8Len ['\n'] = 1 := by decide
      rw [joinLines_append, utf8Len_append]
      have h2 : joinLines [([] : Line)] = ['\n'] := rfl
      rw [h2, h1]
      omega
  have hblocks := parseLines_blocks [] (fun l hl => absurd hl (List.not_mem_nil l))
    [⟨k, beginBlockC k, bs, beginSigC k, ss ++ [[]], endBlockC k, []⟩]
    (by
      intro rb hrb
      rcases List.mem_cons.mp hrb with rfl | hrb
      · exact hok
      · exact absurd hrb (List.not_mem_nil rb))
  rw [Serialized.parse, htc, hrl]
  have hshape : beginBlockC k :: (bs ++ beginSigC k :: (ss ++ [([] : Line), endBlockC k]))
      = [] ++ blocksLines [⟨k, beginBlockC k, bs, beginSigC k, ss ++ [[]], endBlockC k, []⟩] := by
    simp [blocksLines, RawBlock.lines, List.append_assoc]
  rw [hshape, hblocks]
  have hjoin : joinLines (ss ++ [([] : Line)]) = joinLines ss ++ ['\n'] := by
    rw [joinLines_append]
    rfl
  simp [RawBlock.toSerialized, hjoin]

/-- C1 amended witness at a one-line body and one-line signature. -/
theorem c1_roundtrip_amended_witness :
    Serialized.parse (Serialized.toChars
        ⟨joinLines [['a']], joinLines [['s']], ProofType.trust⟩)
      = Except.ok [⟨joinLines [['a']], joinLines [['s']] ++ ['\n'], ProofType.trust⟩] :=
  c1_roundtrip_amended ProofType.trust [['a']] [['s']]
    (by decide) (by decide) (by decide) (by decide)

/-- C2: any successful parse decomposes the input's lines into blank lines
and blocks whose markers are matched after trimming and whose emitted body
is the exact newline-terminated concatenation of the content lines between
the begin-block marker and the begin-signature marker, unmodified. -/
theorem c2_body_exact {input : List Char} {ps : List Serialized}
    (h : Serialized.parse input = Except.ok ps) : BlockSeq (rustLines input) ps :=
  parseLines_sound h

/-- C2 witness on a concrete serialized Code block. -/
theorem c2_body_exact_witness :
    BlockSeq (rustLines (Serialized.toChars ⟨['x', '\n'], ['s', '\n'], ProofType.code⟩))
      [⟨['x', '\n'], ['s', '\n', '\n'], ProofType.code⟩] :=
  c2_body_exact (by decide)

/-- C3: verification checks the stored signature against the body bytes
exactly as stored; the signature text is trimmed of surrounding whitespace
before being decoded; an undecodable signature fails with
signatureMalformed and a failed cryptographic check fails with
signatureInvalid. -/
theorem c3_verify_contract {C S : Type} (decode : List Char → Option S)
    (check : List Char → S → Bool) (p : Proof C) (a b : List Char)
    (ha : ∀ c ∈ a, c.isWhitespace) (hb : ∀ c ∈ b, c.isWhitespace) :
    (Proof.verify decode check
        { p with signature := a ++ p.signature ++ b } = Proof.verify decode check p)
    ∧ (decode (trimChars p.signature) = Option.none →
        Proof.verify decode check p = Except.error VerifyError.signatureMalformed)
    ∧ (∀ sg, decode (trimChars p.signature) = Option.some sg →
        Proof.verify decode check p
          = if check p.body sg then Except.ok () else Except.error VerifyError.signatureInvalid) := by
  refine ⟨?_, ?_, ?_⟩
  · have hpad : trimChars (a ++ (p.signature ++ b)) = trimChars p.signature := by
      rw [← List.append_assoc]
      exact trimChars_pad ha hb p.signature
    simp [Proof.verify, Proof.signatureTrimmed, hpad]
  · intro hd
    simp [Proof.verify, verifySignature, Proof.signatureTrimmed, hd]
  · intro sg hd
    simp [Proof.verify, verifySignature, Proof.signatureTrimmed, hd]

/-- C3 witness at concrete proofs, decoders and checks: whitespace padding
around the signature does not change the verdict, an undecodable signature
is malformed, and a rejected check is invalid. -/
theorem c3_verify_contract_witness :
    (Proof.verify (fun _ : List Char => Option.some ()) (fun _ _ => true)
        { (⟨['b'], ['s'], [], ()⟩ : Proof Unit) with
            signature := [' '] ++ ['s'] ++ ['\t'] }
      = Proof.verify (fun _ : List Char => Option.some ()) (fun _ _ => true)
          (⟨['b'], ['s'], [], ()⟩ : Proof Unit))
    ∧ Proof.verify (fun _ : List Char => (Option.none : Option Unit)) (fun _ _ => true)
        (⟨['b'], ['s'], [], ()⟩ : Proof Unit) = Except.error VerifyError.signatureMalformed
    ∧ Proof.verify (fun _ : List Char => Option.some ()) (fun _ _ => false)
        (⟨['b'], ['s'], [], ()⟩ : Proof Unit) = Except.error VerifyError.signatureInvalid :=
  ⟨(c3_verify_contract (fun _ => Option.some ()) (fun _ _ => true)
      (⟨['b'], ['s'], [], ()⟩ : Proof Unit) [' '] ['\t'] (by decide) (by decide)).1,
   (c3_verify_contract (fun _ : List Char => (Option.none : Option Unit)) (fun _ _ => true)
      (⟨['b'], ['s'], [], ()⟩ : Proof Unit) [' '] ['\t'] (by decide) (by decide)).2.1 rfl,
   (c3_verify_contract (fun _ : List Char => Option.some ()) (fun _ _ => false)
      (⟨['b'], ['s'], [], ()⟩ : Proof Unit) [' '] ['\t'] (by decide) (by decide)).2.2 () rfl⟩

/-! Helpers for concrete boundary-size inputs. -/

lemma utf8Len_replicate (n : Nat) (c : Char) :
    utf8Len (List.replicate n c) = n * c.utf8Size := by
  simp [utf8Len, List.map_replicate, List.sum_replicate, smul_eq_mul]

lemma trimL_replicate (n : Nat) (c : Char) (hc : c.isWhitespace = false) :
    trimL (List.replicate n c) = List.replicate n c := by
  cases n with
  | zero => rfl
  | succ n => simp [trimL, List.replicate_succ, List.dropWhile_cons, hc]

lemma trimR_replicate (n : Nat) (c : Char) (hc : c.isWhitespace = false) :
    trimR (List.replicate n c) = List.replicate n c := by
  cases n with
  | zero => rfl
  | succ n =>
    simp only [trimR, List.reverse_replicate]
    have h1 : (List.replicate (n + 1) c).dropWhile Char.isWhitespace
        = List.replicate (n + 1) c := trimL_replicate (n + 1) c hc
    rw [h1, List.reverse_replicate]

lemma trimChars_replicate (n : Nat) (c : Char) (hc : c.isWhitespace = false) :
    trimChars (List.replicate n c) = List.replicate n c := by
  unfold trimChars
  rw [trimL_replicate n c hc, trimR_replicate n c hc]

lemma replicate_ne_of_length {c : Char} {n : Nat} {l : List Char}
    (h : l.length ≠ n) : List.replicate n c ≠ l := by
  intro he
  exact h (by rw [← he, List.length_replicate])

lemma runAll_congr_fold {st st' : State} {xs ys : List Line}
    (h : runFold st xs = runFold st' ys) : runAll st xs = runAll st' ys := by
  simp [runAll, h]

/-- C4: within one block, any body at most 32000 bytes and signature at most
2000 bytes parse successfully; body content exceeding 32000 bytes fails with
the body-too-long error no matter what follows; signature content exceeding
2000 bytes fails with the signature-too-long error no matter what follows.
The failures are errors, never truncation. -/
theorem c4_size_guards :
    (∀ (k : ProofType) (h0 m e : Line) (bs ss : List Line),
      trimChars h0 = beginBlockC k → (∀ l ∈ bs, trimChars l ≠ beginSigC k) →
      trimChars m = beginSigC k → (∀ l ∈ ss, trimChars l ≠ endBlockC k) →
      trimChars e = endBlockC k →
      utf8Len (joinLines bs) ≤ 32000 → utf8Len (joinLines ss) ≤ 2000 →
      parseLines (h0 :: (bs ++ m :: (ss ++ [e])))
        = Except.ok [⟨joinLines bs, joinLines ss, k⟩])
    ∧ (∀ (k : ProofType) (h0 : Line) (bs rest : List Line),
      trimChars h0 = beginBlockC k → (∀ l ∈ bs, trimChars l ≠ beginSigC k) →
      utf8Len (joinLines bs) > 32000 →
      parseLines (h0 :: (bs ++ rest)) = Except.error ParseError.bodyTooLong)
    ∧ (∀ (k : ProofType) (h0 m : Line) (bs ss rest : List Line),
      trimChars h0 = beginBlockC k → (∀ l ∈ bs, trimChars l ≠ beginSigC k) →
      trimChars m = beginSigC k → (∀ l ∈ ss, trimChars l ≠ endBlockC k) →
      utf8Len (joinLines bs) ≤ 32000 → utf8Len (joinLines ss) > 2000 →
      parseLines (h0 :: (bs ++ m :: (ss ++ rest)))
        = Except.error ParseError.signatureTooLong) := by
  refine ⟨?_, ?_, ?_⟩
  · intro k h0 m e bs ss h1 h2 h3 h4 h5 h6 h7
    have hok : RawBlock.ok ⟨k, h0, bs, m, ss, e, []⟩ := by
      refine ⟨h1, h2, h3, h4, h5, ?_, h6, h7⟩
      intro l hl
      exact absurd hl (List.not_mem_nil l)
    have hblocks := parseLines_blocks [] (fun l hl => absurd hl (List.not_mem_nil l))
      [⟨k, h0, bs, m, ss, e, []⟩]
      (by
        intro rb hrb
        rcases List.mem_cons.mp hrb with rfl | hrb
        · exact hok
        · exact absurd hrb (List.not_mem_nil rb))
    have hshape : ([] : List Line) ++ blocksLines [⟨k, h0, bs, m, ss, e, []⟩]
        = h0 :: (bs ++ m :: (ss ++ [e])) := by
      simp [blocksLines, RawBlock.lines]
    rw [hshape] at hblocks
    rw [hblocks]
    rfl
  · intro k h0 bs rest h1 h2 hover
    have hz : utf8Len ([] : List Char) ≤ MAX_PROOF_BODY_LENGTH := by simp [utf8Len]
    have hov : utf8Len (([] : List Char) ++ joinLines bs) > MAX_PROOF_BODY_LENGTH := by
      simpa [MAX_PROOF_BODY_LENGTH] using hover
    have herr := runFold_body_overflow_run bs h2 hz hov [] [] rest
    have hA : runAll ⟨Stage.body, [], [], k, []⟩ (bs ++ rest)
        = Except.error ParseError.bodyTooLong := by
      simp [runAll, herr]
    calc parseLines (h0 :: (bs ++ rest))
        = runAll ⟨Stage.none, [], [], ProofType.trust, []⟩ (h0 :: (bs ++ rest)) := rfl
      _ = runAll ⟨Stage.body, [], [], k, []⟩ (bs ++ rest) :=
          runAll_cons_ok (processLine_none_begin h1 [] [] ProofType.trust []) _
      _ = Except.error ParseError.bodyTooLong := hA
  · intro k h0 m bs ss rest h1 h2 h3 h4 h6 hover
    have hz : utf8Len ([] : List Char) ≤ 2000 := by simp [utf8Len]
    have hov : utf8Len (([] : List Char) ++ joinLines ss) > 2000 := by
      simpa using hover
    have herr := runFold_sig_overflow_run ss h4 hz hov (joinLines bs) [] rest
    have hA : runAll ⟨Stage.signature, joinLines bs, [], k, []⟩ (ss ++ rest)
        = Except.error ParseError.signatureTooLong := by
      simp [runAll, herr]
    calc parseLines (h0 :: (bs ++ m :: (ss ++ rest)))
        = runAll ⟨Stage.none, [], [], ProofType.trust, []⟩
            (h0 :: (bs ++ m :: (ss ++ rest))) := rfl
      _ = runAll ⟨Stage.body, [], [], k, []⟩ (bs ++ (m :: (ss ++ rest))) :=
          runAll_cons_ok (processLine_none_begin h1 [] [] ProofType.trust []) _
      _ = runAll ⟨Stage.body, joinLines bs, [], k, []⟩ (m :: (ss ++ rest)) := by
          apply runAll_congr_fold
          have h6' : utf8Len (([] : List Char) ++ joinLines bs) ≤ MAX_PROOF_BODY_LENGTH := by
            simpa [MAX_PROOF_BODY_LENGTH] using h6
          have := runFold_body_lines bs h2 h6' [] [] (m :: (ss ++ rest))
          simpa using this
      _ = runAll ⟨Stage.signature, joinLines bs, [], k, []⟩ (ss ++ rest) :=
          runAll_cons_ok (processLine_body_marker h3 h6 [] []) _
      _ = Except.error ParseError.signatureTooLong := hA

/-- C4 witness: a body of exactly 32000 bytes and a signature of exactly
2000 bytes parse successfully; 32001 bytes of body fail with the
body-too-long error; 2001 bytes of signature fail with the
signature-too-long error. -/
theorem c4_size_guards_witness :
    parseLines (beginBlockC ProofType.trust ::
        ([List.replicate 31999 'a'] ++ beginSigC ProofType.trust ::
          ([List.replicate 1999 'b'] ++ [endBlockC ProofType.trust])))
      = Except.ok [⟨joinLines [List.replicate 31999 'a'],
          joinLines [List.replicate 1999 'b'], ProofType.trust⟩]
    ∧ parseLines (beginBlockC ProofType.trust :: ([List.replicate 32000 'a'] ++ []))
      = Except.error ParseError.bodyTooLong
    ∧ parseLines (beginBlockC ProofType.trust ::
        ([] ++ beginSigC ProofType.trust :: ([List.replicate 2000 'b'] ++ [])))
      = Except.error ParseError.signatureTooLong := by
  have ha : Char.utf8Size 'a' = 1 := by decide
  have hb : Char.utf8Size 'b' = 1 := by decide
  have hn : Char.utf8Size '\n' = 1 := by decide
  have hlen1 : utf8Len (joinLines [List.replicate 31999 'a']) = 32000 := by
    rw [joinLines_cons, joinLines_nil]
    have : List.replicate 31999 'a' ++ '\n' :: [] = List.replicate 31999 'a' ++ ['\n'] := rfl
    rw [this, utf8Len_append, utf8Len_replicate, ha]
    simp [utf8Len, hn]
  have hlen2 : utf8Len (joinLines [List.replicate 1999 'b']) = 2000 := by
    rw [joinLines_cons, joinLines_nil]
    have : List.replicate 1999 'b' ++ '\n' :: [] = List.replicate 1999 'b' ++ ['\n'] := rfl
    rw [this, utf8Len_append, utf8Len_replicate, hb]
    simp [utf8Len, hn]
  have hlen3 : utf8Len (joinLines [List.replicate 32000 'a']) = 32001 := by
    rw [joinLines_cons, joinLines_nil]
    have : List.replicate 32000 'a' ++ '\n' :: [] = List.replicate 32000 'a' ++ ['\n'] := rfl
    rw [this, utf8Len_append, utf8Len_replicate, ha]
    simp [utf8Len, hn]
  have hlen4 : utf8Len (joinLines [List.replicate 2000 'b']) = 2001 := by
    rw [joinLines_cons, joinLines_nil]
    have : List.replicate 2000 'b' ++ '\n' :: [] = List.replicate 2000 'b' ++ ['\n'] := rfl
    rw [this, utf8Len_append, utf8Len_replicate, hb]
    simp [utf8Len, hn]
  have hnm1 : ∀ l ∈ [List.replicate 31999 'a'], trimChars l ≠ beginSigC ProofType.trust := by
    intro l hl
    rcases List.mem_cons.mp hl with rfl | hl
    · rw [trimChars_replicate _ _ (by decide)]
      exact replicate_ne_of_length (by decide)
    · exact absurd hl (List.not_mem_nil l)
  have hnm2 : ∀ l ∈ [List.replicate 1999 'b'], trimChars l ≠ endBlockC ProofType.trust := by
    intro l hl
    rcases List.mem_cons.mp hl with rfl | hl
    · rw [trimChars_replicate _ _ (by decide)]
      exact replicate_ne_of_length (by decide)
    · exact absurd hl (List.not_mem_nil l)
  have hnm3 : ∀ l ∈ [List.replicate 32000 'a'], trimChars l ≠ beginSigC ProofType.trust := by
    intro l hl
    rcases List.mem_cons.mp hl with rfl | hl
    · rw [trimChars_replicate _ _ (by decide)]
      exact replicate_ne_of_length (by decide)
    · exact absurd hl (List.not_mem_nil l)
  have hnm4 : ∀ l ∈ [List.replicate 2000 'b'], trimChars l ≠ endBlockC ProofType.trust := by
    intro l hl
    rcases List.mem_cons.mp hl with rfl | hl
    · rw [trimChars_replicate _ _ (by decide)]
      exact replicate_ne_of_length (by decide)
    · exact absurd hl (List.not_mem_nil l)
  refine ⟨?_, ?_, ?_⟩
  · exact c4_size_guards.1 ProofType.trust _ _ _ _ _
      (marker_trim_fixed ProofType.trust).1 hnm1 (marker_trim_fixed ProofType.trust).2.1
      hnm2 (marker_trim_fixed ProofType.trust).2.2 (by rw [hlen1]) (by rw [hlen2])
  · exact c4_size_guards.2.1 ProofType.trust _ _ []
      (marker_trim_fixed ProofType.trust).1 hnm3 (by rw [hlen3]; omega)
  · exact c4_size_guards.2.2 ProofType.trust _ _ [] _ []
      (marker_trim_fixed ProofType.trust).1 (by simp)
      (marker_trim_fixed ProofType.trust).2.1 hnm4
      (by simp [joinLines_nil, utf8Len]) (by rw [hlen4]; omega)

/-- C5 counterexample: when the secure-randomness source is unavailable,
`OwnId::generate` does not return an error — it panics, because the source
unwraps the RNG constructor result. -/
theorem c5_generate_counterexample :
    OwnId.generate (Except.error () : Except Unit Unit)
      (fun _ => ⟨⟨[]⟩, ⟨[]⟩⟩) ['u'] = PanicOr.panic := rfl

/-- C5 (amended): when the secure-randomness source is unavailable,
`generate(url)` panics for every url and keypair generator; its return type
has no error channel. -/
theorem c5_generate_panics {R : Type} (kpGen : R → Keypair) (url : List Char) :
    OwnId.generate (Except.error ()) kpGen url = PanicOr.panic := rfl

/-- C6: end-of-input inside a body section or inside a signature section
fails with the unexpected-end-of-input error; end-of-input in the Outside
stage succeeds with exactly the blocks already completed. -/
theorem c6_eof_behavior :
    (∀ (k : ProofType) (h0 : Line) (bs : List Line),
      trimChars h0 = beginBlockC k → (∀ l ∈ bs, trimChars l ≠ beginSigC k) →
      utf8Len (joinLines bs) ≤ 32000 →
      parseLines (h0 :: bs) = Except.error ParseError.unexpectedEof)
    ∧ (∀ (k : ProofType) (h0 m : Line) (bs ss : List Line),
      trimChars h0 = beginBlockC k → (∀ l ∈ bs, trimChars l ≠ beginSigC k) →
      trimChars m = beginSigC k → (∀ l ∈ ss, trimChars l ≠ endBlockC k) →
      utf8Len (joinLines bs) ≤ 32000 → utf8Len (joinLines ss) ≤ 2000 →
      parseLines (h0 :: (bs ++ m :: ss)) = Except.error ParseError.unexpectedEof)
    ∧ (∀ (ls : List Line) (st : State), runFold initState ls = Except.ok st →
      st.stage = Stage.none → parseLines ls = Except.ok st.proofs) := by
  refine ⟨?_, ?_, ?_⟩
  · intro k h0 bs h1 h2 hsz
    have hsz' : utf8Len (([] : List Char) ++ joinLines bs) ≤ MAX_PROOF_BODY_LENGTH := by
      simpa [MAX_PROOF_BODY_LENGTH] using hsz
    calc parseLines (h0 :: bs)
        = runAll ⟨Stage.none, [], [], ProofType.trust, []⟩ (h0 :: bs) := rfl
      _ = runAll ⟨Stage.body, [], [], k, []⟩ (bs ++ []) := by
          rw [List.append_nil]
          exact runAll_cons_ok (processLine_none_begin h1 [] [] ProofType.trust []) bs
      _ = runAll ⟨Stage.body, [] ++ joinLines bs, [], k, []⟩ [] :=
          runAll_congr_fold (runFold_body_lines bs h2 hsz' [] [] [])
      _ = Except.error ParseError.unexpectedEof := rfl
  · intro k h0 m bs ss h1 h2 h3 h4 hb hs
    have hb' : utf8Len (([] : List Char) ++ joinLines bs) ≤ MAX_PROOF_BODY_LENGTH := by
      simpa [MAX_PROOF_BODY_LENGTH] using hb
    have hb2 : utf8Len (([] : List Char) ++ joinLines bs) ≤ 32000 := by simpa using hb
    have hs' : utf8Len (([] : List Char) ++ joinLines ss) ≤ 2000 := by simpa using hs
    calc parseLines (h0 :: (bs ++ m :: ss))
        = runAll ⟨Stage.none, [], [], ProofType.trust, []⟩ (h0 :: (bs ++ m :: ss)) := rfl
      _ = runAll ⟨Stage.body, [], [], k, []⟩ (bs ++ m :: ss) :=
          runAll_cons_ok (processLine_none_begin h1 [] [] ProofType.trust []) _
      _ = runAll ⟨Stage.body, [] ++ joinLines bs, [], k, []⟩ (m :: ss) :=
          runAll_congr_fold (runFold_body_lines bs h2 hb' [] [] (m :: ss))
      _ = runAll ⟨Stage.signature, [] ++ joinLines bs, [], k, []⟩ (ss ++ []) := by
          rw [List.append_nil]
          exact runAll_cons_ok (processLine_body_marker h3 hb2 [] []) ss
      _ = runAll ⟨Stage.signature, [] ++ joinLines bs, [] ++ joinLines ss, k, []⟩ [] :=
          runAll_congr_fold (runFold_sig_lines ss h4 hs' ([] ++ joinLines bs) [] [])
      _ = Except.error ParseError.unexpectedEof := rfl
  · intro ls st h hst
    simp [parseLines, h, finishState, hst]

/-- C6 witness: a stream truncated right after a begin-block marker and one
truncated right after a begin-signature marker both fail with the
unexpected-end-of-input error, while the empty stream succeeds with no
blocks. -/
theorem c6_eof_behavior_witness :
    parseLines [beginBlockC ProofType.trust] = Except.error ParseError.unexpectedEof
    ∧ parseLines [beginBlockC ProofType.trust, beginSigC ProofType.trust]
        = Except.error ParseError.unexpectedEof
    ∧ parseLines [] = Except.ok initState.proofs := by
  refine ⟨?_, ?_, ?_⟩
  · exact c6_eof_behavior.1 ProofType.trust (beginBlockC ProofType.trust) []
      (marker_trim_fixed ProofType.trust).1
      (fun l hl => absurd hl (List.not_mem_nil l)) (by decide)
  · exact c6_eof_behavior.2.1 ProofType.trust (beginBlockC ProofType.trust)
      (beginSigC ProofType.trust) [] []
      (marker_trim_fixed ProofType.trust).1
      (fun l hl => absurd hl (List.not_mem_nil l))
      (marker_trim_fixed ProofType.trust).2.1
      (fun l hl => absurd hl (List.not_mem_nil l)) (by decide) (by decide)
  · exact c6_eof_behavior.2.2 [] initState rfl rfl

/-- C7: a stream of blank lines and any number of well-formed blocks
followed by a tail that parses to an error yields that error for the whole
stream, at the `Serialized` level and at the `Proof` level: no triplet and
no proof of the leading valid blocks is returned. -/
theorem c7_fail_fast (C : Type) (cp : ProofType → List Char → Except ParseError C)
    (dg : List Char → List Nat) (input : List Char) (pre : List Line)
    (rbs : List RawBlock) (tail : List Line) (e : ParseError)
    (hsplit : rustLines input = pre ++ (blocksLines rbs ++ tail))
    (hpre : ∀ l ∈ pre, trimChars l = []) (hok : ∀ rb ∈ rbs, rb.ok)
    (htail : parseLines tail = Except.error e) :
    Serialized.parse input = Except.error e
    ∧ Proof.parse cp dg input = Except.error e := by
  have hser : Serialized.parse input = Except.error e := by
    rw [Serialized.parse, hsplit]
    obtain ⟨t', ht'⟩ := runFold_blocks rbs hok ProofType.trust [] tail
    rw [List.nil_append] at ht'
    have h1 : runFold ⟨Stage.none, [], [], ProofType.trust, []⟩
        (pre ++ (blocksLines rbs ++ tail))
        = runFold ⟨Stage.none, [], [], t', rbs.map RawBlock.toSerialized⟩ tail := by
      rw [runFold_blank_lines pre hpre, ht']
    have h0 : parseLines (pre ++ (blocksLines rbs ++ tail))
        = runAll ⟨Stage.none, [], [], ProofType.trust, []⟩
            (pre ++ (blocksLines rbs ++ tail)) := rfl
    rw [h0, runAll_congr_fold h1, runAll_none_shift, htail]
    rfl
  refine ⟨hser, ?_⟩
  simp [Proof.parse, hser]

/-- C7 witness: one valid Trust block followed by a junk line is rejected
whole, with no triplet and no proof returned for the valid block. -/
theorem c7_fail_fast_witness :
    Serialized.parse (Serialized.toChars ⟨['a', '\n'], ['s', '\n'], ProofType.trust⟩ ++ ['x'])
      = Except.error ParseError.startMarkerExpected
    ∧ Proof.parse (fun _ b => Except.ok b) (fun _ => [])
        (Serialized.toChars ⟨['a', '\n'], ['s', '\n'], ProofType.trust⟩ ++ ['x'])
      = Except.error ParseError.startMarkerExpected :=
  c7_fail_fast (List Char) (fun _ b => Except.ok b) (fun _ => [])
    (Serialized.toChars ⟨['a', '\n'], ['s', '\n'], ProofType.trust⟩ ++ ['x'])
    []
    [⟨ProofType.trust, beginBlockC ProofType.trust, [['a']], beginSigC ProofType.trust,
      [['s'], []], endBlockC ProofType.trust, []⟩]
    [['x']] ParseError.startMarkerExpected
    (by decide) (by decide) (by decide) (by decide)

/-- C8: a stream of blank lines followed by any sequence of well-formed
blocks (possibly of different kinds, separated by blank lines) parses to one
triplet per block, in input order, each tagged with the kind of the
begin-block marker that opened it. -/
theorem c8_multi_block (pre : List Line) (rbs : List RawBlock)
    (hpre : ∀ l ∈ pre, trimChars l = []) (hok : ∀ rb ∈ rbs, rb.ok) :
    parseLines (pre ++ blocksLines rbs) = Except.ok (rbs.map RawBlock.toSerialized) :=
  parseLines_blocks pre hpre rbs hok

/-- C8 witness: a Trust block followed by a Code block, with a blank line
between them, yields the two triplets in order with the right kinds. -/
theorem c8_multi_block_witness :
    parseLines ([] ++ blocksLines
      [⟨ProofType.trust, beginBlockC ProofType.trust, [['a']], beginSigC ProofType.trust,
        [['s']], endBlockC ProofType.trust, [[]]⟩,
       ⟨ProofType.code, beginBlockC ProofType.code, [['b']], beginSigC ProofType.code,
        [['t']], endBlockC ProofType.code, []⟩])
      = Except.ok [⟨['a', '\n'], ['s', '\n'], ProofType.trust⟩,
          ⟨['b', '\n'], ['t', '\n'], ProofType.code⟩] :=
  c8_multi_block []
    [⟨ProofType.trust, beginBlockC ProofType.trust, [['a']], beginSigC ProofType.trust,
      [['s']], endBlockC ProofType.trust, [[]]⟩,
     ⟨ProofType.code, beginBlockC ProofType.code, [['b']], beginSigC ProofType.code,
      [['t']], endBlockC ProofType.code, []⟩]
    (by decide) (by decide)

/-- C9: decoding a secret key of the wrong byte length fails with the
invalid-key-material error; with the right length it succeeds and the
recomputed public key is a function of the secret bytes alone — the same
secret yields bit-identical public-key bytes on every call, whatever the
url. -/
theorem c9_from_secret_bytes (derive : SecretKey → PublicKey) (url : List Char)
    (sec : List Nat) :
    (sec.length ≠ 32 → OwnId.new derive url sec = Except.error KeyError.invalidKeyMaterial)
    ∧ (sec.length = 32 → OwnId.new derive url sec
        = Except.ok ⟨PubId.new url (derive ⟨sec⟩).bytes, ⟨⟨sec⟩, derive ⟨sec⟩⟩⟩)
    ∧ (∀ url2 o1 o2, OwnId.new derive url sec = Except.ok o1 →
        OwnId.new derive url2 sec = Except.ok o2 → o1.id.id = o2.id.id) := by
  refine ⟨?_, ?_, ?_⟩
  · intro h
    simp [OwnId.new, secretKeyFromBytes, h]
  · intro h
    simp [OwnId.new, secretKeyFromBytes, h]
  · intro url2 o1 o2 h1 h2
    by_cases h : sec.length = 32
    · simp [OwnId.new, secretKeyFromBytes, h] at h1 h2
      rw [← h1, ← h2]
      rfl
    · simp [OwnId.new, secretKeyFromBytes, h] at h1

/-- C9 witness: a 31-byte secret is rejected with invalid key material; a
32-byte secret is accepted with the derived public key recorded; and the
public-key bytes agree across two calls with different urls. -/
theorem c9_from_secret_bytes_witness :
    OwnId.new (fun sk => ⟨sk.bytes⟩) ['u'] (List.replicate 31 (0 : Nat))
      = Except.error KeyError.invalidKeyMaterial
    ∧ OwnId.new (fun sk => ⟨sk.bytes⟩) ['u'] (List.replicate 32 (0 : Nat))
      = Except.ok ⟨PubId.new ['u'] (List.replicate 32 (0 : Nat)),
          ⟨⟨List.replicate 32 (0 : Nat)⟩, ⟨List.replicate 32 (0 : Nat)⟩⟩⟩
    ∧ (⟨PubId.new ['u'] (List.replicate 32 (0 : Nat)),
          ⟨⟨List.replicate 32 (0 : Nat)⟩, ⟨List.replicate 32 (0 : Nat)⟩⟩⟩ : OwnId).id.id
      = (⟨PubId.new ['v'] (List.replicate 32 (0 : Nat)),
          ⟨⟨List.replicate 32 (0 : Nat)⟩, ⟨List.replicate 32 (0 : Nat)⟩⟩⟩ : OwnId).id.id :=
  ⟨(c9_from_secret_bytes (fun sk => ⟨sk.bytes⟩) ['u'] (List.replicate 31 0)).1 (by decide),
   (c9_from_secret_bytes (fun sk => ⟨sk.bytes⟩) ['u'] (List.replicate 32 0)).2.1 (by decide),
   (c9_from_secret_bytes (fun sk => ⟨sk.bytes⟩) ['u'] (List.replicate 32 0)).2.2 ['v']
     ⟨PubId.new ['u'] (List.replicate 32 (0 : Nat)),
       ⟨⟨List.replicate 32 (0 : Nat)⟩, ⟨List.replicate 32 (0 : Nat)⟩⟩⟩
     ⟨PubId.new ['v'] (List.replicate 32 (0 : Nat)),
       ⟨⟨List.replicate 32 (0 : Nat)⟩, ⟨List.replicate 32 (0 : Nat)⟩⟩⟩
     (by decide) (by decide)⟩

/-- C10: the placeholder kind that initializes the parser state is never
observable: every emitted triplet's kind comes from a line of the input that
trims to that kind's begin-block marker, and whenever the machine is in the
Outside stage its body and signature buffers are empty. -/
theorem c10_placeholder_unobservable :
    (∀ (input : List Char) (ps : List Serialized),
      Serialized.parse input = Except.ok ps →
      ∀ p ∈ ps, ∃ l ∈ rustLines input, trimChars l = beginBlockC p.type_)
    ∧ (∀ (ls : List Line) (st : State), runFold initState ls = Except.ok st →
      st.stage = Stage.none → st.body = [] ∧ st.signature = []) := by
  constructor
  · intro input ps h p hp
    exact BlockSeq.kind_from_marker (parseLines_sound h) p hp
  · intro ls st h hst
    exact runFold_outsideClear ls h (fun _ => ⟨rfl, rfl⟩) hst

/-- C10 witness: the code-kinded triplet emitted from a serialized Code
block indeed points back to a consumed Code begin-block marker line. -/
theorem c10_placeholder_unobservable_witness :
    ∃ l ∈ rustLines (Serialized.toChars ⟨['a', '\n'], ['s', '\n'], ProofType.code⟩),
      trimChars l = beginBlockC ProofType.code :=
  c10_placeholder_unobservable.1
    (Serialized.toChars ⟨['a', '\n'], ['s', '\n'], ProofType.code⟩)
    [⟨['a', '\n'], ['s', '\n', '\n'], ProofType.code⟩] (by decide)
    ⟨['a', '\n'], ['s', '\n', '\n'], ProofType.code⟩ (by decide)

end Crev
